import Mathlib

/-!
# Verification of the atlite resource module (`atlite/resource.py`)

Shallow embedding of the numeric core of `atlite/resource.py`:
the wind-turbine power-curve smoothing (`windturbine_smooth`), the rated
capacity functions (`windturbine_rated_capacity_per_unit`,
`solarpanel_rated_capacity_per_unit`) and the relevant part of
`get_windturbineconfig`.

Floating point numbers are modelled as real numbers; numpy / scipy array
operations (`np.linspace`, `np.interp`, `np.max`, `scipy.signal.fftconvolve`)
are translated to `List ℝ` functions with the semantics the libraries
document (in particular `fftconvolve` in real arithmetic is exact linear
convolution, and `np.interp` clamps to the endpoint values outside of the
sample range).  Python dictionaries holding optional keys (`params`,
the panel config) are modelled as structures of `Option` fields, and a call
that may raise is modelled with `Option` / `Except`.
-/

namespace Atlite

/-- A turbine configuration as produced by `get_windturbineconfig`:
exactly the dictionary `dict(V=..., POW=..., hub_height=..., P=...)`. -/
structure TurbineConfig where
  V : List ℝ
  POW : List ℝ
  hub_height : ℝ
  P : ℝ

/-- The `params` dictionary of `windturbine_smooth`: each of the three keys
may be present or absent. -/
structure ParamsDict where
  eta : Option ℝ
  Delta_v : Option ℝ
  sigma : Option ℝ

/-- The three `params.setdefault(...)` calls of `windturbine_smooth`
(lines 148-150): any missing key is inserted with its default value;
this is the state of the dictionary after the call. -/
def ParamsDict.setdefaults (p : ParamsDict) : ParamsDict :=
  { eta := some (p.eta.getD 0.95)
    Delta_v := some (p.Delta_v.getD 1.27)
    sigma := some (p.sigma.getD 2.29) }

/-- `np.max` of a 1-d array: `none` on an empty array (numpy raises a
`ValueError` there), otherwise the fold of `max` over the elements. -/
def npMax : List ℝ → Option ℝ
  | [] => none
  | x :: xs => some (xs.foldl max x)

/-- The final line of `get_windturbineconfig` (line 85):
`dict(V=np.array(V), POW=np.array(POW), hub_height=hub_height, P=np.max(POW))`;
`none` when `np.max` raises on an empty `POW`. -/
def get_windturbineconfig_model (V POW : List ℝ) (hub : ℝ) : Option TurbineConfig :=
  (npMax POW).map (fun m => { V := V, POW := POW, hub_height := hub, P := m })

/-- `windturbine_rated_capacity_per_unit` (lines 114-118) on an already
loaded config: it simply returns the stored field `turbine['P']`. -/
def windturbine_rated_capacity_per_unit (t : TurbineConfig) : ℝ := t.P

/-- `np.linspace a b n`: `n` evenly spaced points from `a` to `b` inclusive. -/
noncomputable def linspace (a b : ℝ) (n : ℕ) : List ℝ :=
  (List.range n).map (fun i : ℕ => a + (i : ℝ) * ((b - a) / ((n : ℝ) - 1)))

/-- `np.linspace(-50., 50., 1001)` of `windturbine_smooth` (line 159). -/
noncomputable def velocities_reg : List ℝ := linspace (-50) 50 1001

/-- `np.linspace(0., 35., 72)` of `windturbine_smooth` (line 169). -/
noncomputable def velocities_new : List ℝ := linspace 0 35 72

/-- One step of `np.interp` on the zipped list of sample points
`(xp i, fp i)`: clamp below the first point and above the last point,
linear interpolation on the segments in between. -/
noncomputable def interp_zip (x : ℝ) : List (ℝ × ℝ) → ℝ
  | [] => 0
  | [p] => p.2
  | p :: q :: rest =>
    if x ≤ p.1 then p.2
    else if x ≤ q.1 then p.2 + (q.2 - p.2) * (x - p.1) / (q.1 - p.1)
    else interp_zip x (q :: rest)

/-- `np.interp x xp fp` for ascending `xp`, total version (numpy raises on
empty `xp` or on a length mismatch; see `np_interpO` for that guard). -/
noncomputable def np_interp (x : ℝ) (xp fp : List ℝ) : ℝ :=
  interp_zip x (xp.zip fp)

/-- `np.interp` with numpy's failure behaviour: `ValueError` (here `none`)
when the sample array is empty or the two arrays differ in length. -/
noncomputable def np_interpO (x : ℝ) (xp fp : List ℝ) : Option ℝ :=
  if xp.length = fp.length then
    if xp.isEmpty then none else some (np_interp x xp fp)
  else none

/-- Apply a fallible function to every element of a list, failing as soon
as one application fails (the behaviour of a numpy call evaluated on a
whole array: one `ValueError` aborts everything). -/
def mapOpt {α β : Type} (f : α → Option β) : List α → Option (List β)
  | [] => some []
  | a :: as =>
    match f a, mapOpt f as with
    | some b, some bs => some (b :: bs)
    | _, _ => none

/-- The Gaussian `kernel` closure of `windturbine_smooth` (lines 152-155),
written exactly as in the source. -/
noncomputable def kernel (Delta_v sigma v_0 : ℝ) : ℝ :=
  1 / Real.sqrt (2 * Real.pi * sigma * sigma) *
    Real.exp (-(v_0 - Delta_v) * (v_0 - Delta_v) / (2 * sigma * sigma))

/-- Entry `k` of the full linear convolution of `a` and `b`
(zero-extended outside their supports). -/
noncomputable def full_conv (a b : List ℝ) (k : ℕ) : ℝ :=
  ∑ j in Finset.range (k + 1), a.getD j 0 * b.getD (k - j) 0

/-- `scipy.signal.fftconvolve(a, b, mode='same')` in exact arithmetic:
the central `a.length` entries of the full linear convolution, i.e. entry
`i` of the result is entry `i + (b.length - 1) / 2` of the full one. -/
noncomputable def fftconvolve_same (a b : List ℝ) : List ℝ :=
  (List.range a.length).map (fun i => full_conv a b (i + (b.length - 1) / 2))

/-- The body of the `smooth` closure (lines 157-172): resample the power
curve onto the regular grid, evaluate the kernel there, convolve ('same')
scaled by the 0.1 grid spacing, resample onto the coarse output grid and
derate by `eta`. -/
noncomputable def power_new (V POW : List ℝ) (eta Delta_v sigma : ℝ) : List ℝ :=
  let power_reg := velocities_reg.map (fun x => np_interp x V POW)
  let kernel_reg := velocities_reg.map (kernel Delta_v sigma)
  let convolution := (fftconvolve_same power_reg kernel_reg).map (fun y => 0.1 * y)
  velocities_new.map (fun x => eta * np_interp x velocities_reg convolution)

open Classical in
/-- The oversmoothing test of line 178:
`any(turbine['POW'][np.where(turbine['V'] == 0.0)] > 1e-2)`. -/
noncomputable def oversmooth_flag (vnew pnew : List ℝ) : Bool :=
  decide (∃ q ∈ vnew.zip pnew, q.1 = 0 ∧ 1e-2 < q.2)

/-- `windturbine_smooth` (lines 120-182).  The value is the triple of the
returned config (built on a copy of the input, with `V`, `POW` and `P`
replaced), the oversmoothing-warning flag emitted through the logger, and
the caller's `params` dictionary as it stands after the call (the
`setdefault` calls mutate it in place in the source). -/
noncomputable def windturbine_smooth (t : TurbineConfig) (params : ParamsDict) :
    (TurbineConfig × Bool) × ParamsDict :=
  let params2 := params.setdefaults
  let eta := params.eta.getD 0.95
  let dv := params.Delta_v.getD 1.27
  let s := params.sigma.getD 2.29
  let pnew := power_new t.V t.POW eta dv s
  let t2 := { t with V := velocities_new, POW := pnew, P := (npMax pnew).getD 0 }
  ((t2, oversmooth_flag velocities_new pnew), params2)

/-- `windturbine_smooth` with numpy's failure behaviour made explicit:
both `np.interp` applications and the final `np.max` may raise; a raised
exception is `none`.  Apart from those guards this is the same computation
as `windturbine_smooth`. -/
noncomputable def windturbine_smoothE (t : TurbineConfig) (params : ParamsDict) :
    Option ((TurbineConfig × Bool) × ParamsDict) :=
  let params2 := params.setdefaults
  let eta := params.eta.getD 0.95
  let dv := params.Delta_v.getD 1.27
  let s := params.sigma.getD 2.29
  match mapOpt (fun x => np_interpO x t.V t.POW) velocities_reg with
  | none => none
  | some power_reg =>
    let kernel_reg := velocities_reg.map (kernel dv s)
    let convolution := (fftconvolve_same power_reg kernel_reg).map (fun y => 0.1 * y)
    match mapOpt (fun x => np_interpO x velocities_reg convolution) velocities_new with
    | none => none
    | some pnew0 =>
      let pnew := pnew0.map (fun y => eta * y)
      match npMax pnew with
      | none => none
      | some m =>
        let t2 := { t with V := velocities_new, POW := pnew, P := m }
        some ((t2, oversmooth_flag velocities_new pnew), params2)

/-- The panel dictionary consumed by `solarpanel_rated_capacity_per_unit`:
every key that the function may look up is optional. -/
structure PanelDict where
  model : Option String
  efficiency : Option ℝ
  A : Option ℝ
  B : Option ℝ
  C : Option ℝ

/-- `solarpanel_rated_capacity_per_unit` (lines 99-112) on an already
loaded panel dictionary.  `panel.get('model', 'huld')` defaults a missing
model tag to `'huld'`; a missing field looked up afterwards raises a
`KeyError` (modelled as `Except.error`); a model tag that matches neither
branch falls off the end of the function, i.e. Python returns `None`
(modelled as `Except.ok none`). -/
noncomputable def solarpanel_rated_capacity_per_unit (p : PanelDict) :
    Except String (Option ℝ) :=
  let model := p.model.getD "huld"
  if model = "huld" then
    match p.efficiency with
    | some e => Except.ok (some e)
    | none => Except.error "KeyError"
  else if model = "bofinger" then
    match p.A, p.B, p.C with
    | some a, some b, some c =>
        Except.ok (some ((a + b * 1000 + c * Real.log 1000) * 1000))
    | _, _, _ => Except.error "KeyError"
  else Except.ok none

/-! ### Spec-side definitions

The following definitions are written from the words of the specification
(spec.md §4.2 and the text of claim C1), independently of the source
translation above, to state the refinement claim C1. -/

/-- Spec: "a regular evaluation grid of 1001 points spanning [-50, 50] m/s
at 0.1 m/s spacing". -/
noncomputable def grid_spec : List ℝ :=
  (List.range 1001).map (fun i : ℕ => -50 + 0.1 * (i : ℝ))

/-- Spec: "a coarse output grid of 72 points spanning [0, 35] m/s"
(evenly spaced, so point `j` is `35·j/71`). -/
noncomputable def out_grid_spec : List ℝ :=
  (List.range 72).map (fun j : ℕ => 35 * (j : ℝ) / 71)

/-- Spec: "kernel(v) = (1/√(2π·σ²)) · exp(−(v−Δv)²/(2σ²))". -/
noncomputable def kernel_spec (delta_v sigma v : ℝ) : ℝ :=
  1 / Real.sqrt (2 * Real.pi * sigma ^ 2) *
    Real.exp (-(v - delta_v) ^ 2 / (2 * sigma ^ 2))

/-- Spec: linear interpolation of the samples `(xp, fp)`, "with flat
clamping to the endpoint values outside [min(V), max(V)]", written as a
parallel recursion on the two sample lists. -/
noncomputable def interp_spec (x : ℝ) : List ℝ → List ℝ → ℝ
  | [], _ => 0
  | _ :: _, [] => 0
  | [_], f1 :: _ => f1
  | _ :: _ :: _, [f1] => f1
  | x1 :: x2 :: xs, f1 :: f2 :: fs =>
    if x ≤ x1 then f1
    else if x ≤ x2 then f1 + (x - x1) * (f2 - f1) / (x2 - x1)
    else interp_spec x (x2 :: xs) (f2 :: fs)

/-- Index into a list, seen as a function on all of `ℤ` that is zero off
the support — the sequences entering the spec's linear convolution. -/
noncomputable def zext (b : List ℝ) (k : ℤ) : ℝ :=
  if 0 ≤ k then b.getD k.toNat 0 else 0

/-- Spec: "a length-preserving ('same') linear convolution of the two":
entry `i` of the result pairs every entry `a j` of the first sequence with
the zero-extended entry of the second one at offset
`i + (b.length - 1) / 2 - j`, the centering of the 'same' mode. -/
noncomputable def conv_same_spec (a b : List ℝ) : List ℝ :=
  (List.range a.length).map (fun i =>
    ∑ j in Finset.range a.length,
      a.getD j 0 * zext b (((i + (b.length - 1) / 2 : ℕ) : ℤ) - (j : ℤ)))

/-- The smoothing pipeline exactly as the claim words it: resample `POW`
onto the regular grid, evaluate the kernel there, 'same'-convolve and
multiply by 0.1, interpolate onto the 72-point grid and multiply
point-wise by `eta`. -/
noncomputable def power_spec (V POW : List ℝ) (eta delta_v sigma : ℝ) : List ℝ :=
  let resampled := grid_spec.map (fun v => interp_spec v V POW)
  let kern := grid_spec.map (kernel_spec delta_v sigma)
  let conv := (conv_same_spec resampled kern).map (fun y => y * 0.1)
  out_grid_spec.map (fun v => interp_spec v grid_spec conv * eta)

/-- The config the claim says `windturbine_smooth` returns: the 72 output
velocities, the smoothed power sequence, and a rated power equal to the
maximum of the new power sequence, `hub_height` untouched. -/
noncomputable def smooth_spec (t : TurbineConfig) (eta delta_v sigma : ℝ) : TurbineConfig :=
  let pnew := power_spec t.V t.POW eta delta_v sigma
  { V := out_grid_spec, POW := pnew, hub_height := t.hub_height, P := (npMax pnew).getD 0 }

/-! ### Helper lemmas -/

theorem map_congr_mem {α β : Type} {f g : α → β} :
    ∀ {l : List α}, (∀ a ∈ l, f a = g a) → l.map f = l.map g := by
  intro l
  induction l with
  | nil => intro _; rfl
  | cons a as ih =>
    intro h
    simp only [List.map_cons]
    rw [h a (by simp), ih (fun x hx => h x (by simp [hx]))]

theorem grid_spec_eq : grid_spec = velocities_reg := by
  unfold grid_spec velocities_reg linspace
  apply map_congr_mem
  intro i _
  norm_num
  ring

theorem out_grid_spec_eq : out_grid_spec = velocities_new := by
  unfold out_grid_spec velocities_new linspace
  apply map_congr_mem
  intro i _
  norm_num
  ring

theorem kernel_eq (dv s v : ℝ) : kernel dv s v = kernel_spec dv s v := by
  unfold kernel kernel_spec
  rw [show 2 * Real.pi * s * s = 2 * Real.pi * s ^ 2 by ring,
      show -(v - dv) * (v - dv) / (2 * s * s) = -(v - dv) ^ 2 / (2 * s ^ 2) by ring]

theorem interp_spec_eq (x : ℝ) :
    ∀ (xp fp : List ℝ), interp_spec x xp fp = np_interp x xp fp := by
  intro xp
  induction xp with
  | nil => intro fp; simp [interp_spec, np_interp, interp_zip]
  | cons x1 xs ih =>
    intro fp
    cases fp with
    | nil => cases xs <;> simp [interp_spec, np_interp, interp_zip]
    | cons f1 fs =>
      cases xs with
      | nil => cases fs <;> simp [interp_spec, np_interp, interp_zip]
      | cons x2 xs2 =>
        cases fs with
        | nil => simp [interp_spec, np_interp, interp_zip]
        | cons f2 fs2 =>
          show interp_spec x (x1 :: x2 :: xs2) (f1 :: f2 :: fs2) =
            np_interp x (x1 :: x2 :: xs2) (f1 :: f2 :: fs2)
          rw [interp_spec, np_interp]
          simp only [List.zip_cons_cons, interp_zip]
          rcases le_or_lt x x1 with h1 | h1
          · simp [h1]
          · rcases le_or_lt x x2 with h2 | h2
            · simp [not_le.mpr h1, h2]
              ring
            · simp only [if_neg (not_le.mpr h1), if_neg (not_le.mpr h2)]
              have := ih (f2 :: fs2)
              rw [np_interp] at this
              simpa [List.zip_cons_cons] using this

theorem zext_natCast (b : List ℝ) (m : ℕ) : zext b (m : ℤ) = b.getD m 0 := by
  simp [zext]

theorem zext_neg (b : List ℝ) (k : ℤ) (h : k < 0) : zext b k = 0 := by
  simp [zext, not_le.mpr h]

theorem conv_pointwise (a b : List ℝ) (k : ℕ) :
    (∑ j in Finset.range a.length, a.getD j 0 * zext b ((k : ℤ) - (j : ℤ))) =
      full_conv a b k := by
  classical
  set T := max (k + 1) a.length with hT
  have hsub1 : Finset.range (k + 1) ⊆ Finset.range T :=
    Finset.range_subset.mpr (le_max_left _ _)
  have hsub2 : Finset.range a.length ⊆ Finset.range T :=
    Finset.range_subset.mpr (le_max_right _ _)
  have hfull : full_conv a b k =
      ∑ j in Finset.range T, a.getD j 0 * zext b ((k : ℤ) - (j : ℤ)) := by
    have step1 : full_conv a b k =
        ∑ j in Finset.range (k + 1), a.getD j 0 * zext b ((k : ℤ) - (j : ℤ)) := by
      unfold full_conv
      apply Finset.sum_congr rfl
      intro j hj
      have hjk : j ≤ k := Nat.lt_succ_iff.mp (Finset.mem_range.mp hj)
      have hcast : ((k : ℤ) - (j : ℤ)) = ((k - j : ℕ) : ℤ) := by omega
      rw [hcast, zext_natCast]
    rw [step1]
    apply Finset.sum_subset hsub1
    intro j _ hj
    have hjk : k < j := by
      by_contra hc
      exact hj (Finset.mem_range.mpr (Nat.lt_succ_iff.mpr (not_lt.mp hc)))
    rw [zext_neg b _ (by omega), mul_zero]
  have hspec : (∑ j in Finset.range a.length, a.getD j 0 * zext b ((k : ℤ) - (j : ℤ))) =
      ∑ j in Finset.range T, a.getD j 0 * zext b ((k : ℤ) - (j : ℤ)) := by
    rw [Finset.sum_subset hsub2]
    intro j _ hj
    have hja : a.length ≤ j := by
      by_contra hc
      exact hj (Finset.mem_range.mpr (not_le.mp hc))
    rw [List.getD_eq_default _ _ hja, zero_mul]
  rw [hspec, hfull]

theorem conv_same_spec_eq (a b : List ℝ) :
    conv_same_spec a b = fftconvolve_same a b := by
  unfold conv_same_spec fftconvolve_same
  apply map_congr_mem
  intro i _
  exact conv_pointwise a b (i + (b.length - 1) / 2)

theorem power_spec_eq (V POW : List ℝ) (eta dv s : ℝ) :
    power_spec V POW eta dv s = power_new V POW eta dv s := by
  unfold power_spec power_new
  simp only []
  have hres : grid_spec.map (fun v => interp_spec v V POW) =
      velocities_reg.map (fun x => np_interp x V POW) := by
    rw [grid_spec_eq]
    exact map_congr_mem (fun v _ => interp_spec_eq v V POW)
  have hker : grid_spec.map (kernel_spec dv s) = velocities_reg.map (kernel dv s) := by
    rw [grid_spec_eq]
    exact map_congr_mem (fun v _ => (kernel_eq dv s v).symm)
  rw [hres, hker, conv_same_spec_eq]
  have hscale :
      (fftconvolve_same (velocities_reg.map (fun x => np_interp x V POW))
          (velocities_reg.map (kernel dv s))).map (fun y => y * 0.1) =
      (fftconvolve_same (velocities_reg.map (fun x => np_interp x V POW))
          (velocities_reg.map (kernel dv s))).map (fun y => 0.1 * y) :=
    map_congr_mem (fun y _ => mul_comm y 0.1)
  rw [hscale, out_grid_spec_eq]
  apply map_congr_mem
  intro v _
  rw [interp_spec_eq, grid_spec_eq, mul_comm]

theorem foldl_max_spec (l : List ℝ) :
    ∀ x : ℝ, (l.foldl max x = x ∨ l.foldl max x ∈ l) ∧
      x ≤ l.foldl max x ∧ ∀ y ∈ l, y ≤ l.foldl max x := by
  induction l with
  | nil => intro x; simp
  | cons a as ih =>
    intro x
    have h := ih (max x a)
    refine ⟨?_, ?_, ?_⟩
    · rcases h.1 with heq | hmem
      · rcases max_choice x a with hx | ha
        · left; simp only [List.foldl_cons]; rw [heq, hx]
        · right; simp only [List.foldl_cons]; rw [heq, ha]; simp
      · right; simp [List.foldl_cons, hmem]
    · calc x ≤ max x a := le_max_left x a
        _ ≤ as.foldl max (max x a) := h.2.1
    · intro y hy
      rcases List.mem_cons.mp hy with rfl | hmem
      · calc y ≤ max x y := le_max_right x y
          _ ≤ as.foldl max (max x y) := h.2.1
      · exact h.2.2 y hmem

theorem npMax_spec (l : List ℝ) (m : ℝ) (h : npMax l = some m) :
    m ∈ l ∧ ∀ x ∈ l, x ≤ m := by
  cases l with
  | nil => simp [npMax] at h
  | cons a as =>
    simp only [npMax, Option.some.injEq] at h
    subst h
    have hs := foldl_max_spec as a
    refine ⟨?_, ?_⟩
    · rcases hs.1 with heq | hmem
      · rw [heq]; simp
      · exact List.mem_cons_of_mem a hmem
    · intro x hx
      rcases List.mem_cons.mp hx with rfl | hmem
      · exact hs.2.1
      · exact hs.2.2 x hmem

theorem interp_zip_nonneg (x : ℝ) :
    ∀ l : List (ℝ × ℝ), (∀ q ∈ l, 0 ≤ q.2) → 0 ≤ interp_zip x l := by
  intro l
  induction l with
  | nil => intro _; simp [interp_zip]
  | cons p rest ih =>
    intro h
    cases rest with
    | nil => simpa [interp_zip] using h p (by simp)
    | cons q rest2 =>
      rw [interp_zip]
      have hp : 0 ≤ p.2 := h p (by simp)
      have hq : 0 ≤ q.2 := h q (by simp)
      rcases le_or_lt x p.1 with h1 | h1
      · rw [if_pos h1]; exact hp
      · rw [if_neg (not_le.mpr h1)]
        rcases le_or_lt x q.1 with h2 | h2
        · rw [if_pos h2]
          have hd : 0 < q.1 - p.1 := by linarith
          have ht0 : 0 ≤ (x - p.1) / (q.1 - p.1) :=
            div_nonneg (by linarith) (le_of_lt hd)
          have ht1 : (x - p.1) / (q.1 - p.1) ≤ 1 :=
            (div_le_one hd).mpr (by linarith)
          have key : p.2 + (q.2 - p.2) * (x - p.1) / (q.1 - p.1) =
              p.2 * (1 - (x - p.1) / (q.1 - p.1)) +
                q.2 * ((x - p.1) / (q.1 - p.1)) := by
            ring
          rw [key]
          exact add_nonneg (mul_nonneg hp (by linarith)) (mul_nonneg hq ht0)
        · rw [if_neg (not_le.mpr h2)]
          exact ih (fun r hr => h r (by simp [hr]))

theorem np_interp_nonneg (x : ℝ) (xp fp : List ℝ) (h : ∀ y ∈ fp, 0 ≤ y) :
    0 ≤ np_interp x xp fp := by
  unfold np_interp
  apply interp_zip_nonneg
  intro q hq
  obtain ⟨a, b⟩ := q
  exact h b (List.of_mem_zip hq).2

theorem getD_nonneg (l : List ℝ) (h : ∀ y ∈ l, 0 ≤ y) : ∀ i : ℕ, 0 ≤ l.getD i 0 := by
  induction l with
  | nil => intro i; simp
  | cons a as ih =>
    intro i
    cases i with
    | zero => simpa using h a (by simp)
    | succ n => simpa using ih (fun y hy => h y (by simp [hy])) n

theorem kernel_nonneg (dv s v : ℝ) : 0 ≤ kernel dv s v := by
  unfold kernel
  exact mul_nonneg (div_nonneg zero_le_one (Real.sqrt_nonneg _))
    (le_of_lt (Real.exp_pos _))

theorem full_conv_nonneg (a b : List ℝ) (ha : ∀ y ∈ a, 0 ≤ y)
    (hb : ∀ y ∈ b, 0 ≤ y) (k : ℕ) : 0 ≤ full_conv a b k := by
  unfold full_conv
  apply Finset.sum_nonneg
  intro j _
  exact mul_nonneg (getD_nonneg a ha j) (getD_nonneg b hb (k - j))

theorem power_new_nonneg (V POW : List ℝ) (eta dv s : ℝ)
    (hpow : ∀ y ∈ POW, 0 ≤ y) (heta : 0 ≤ eta) :
    ∀ y ∈ power_new V POW eta dv s, 0 ≤ y := by
  unfold power_new
  simp only []
  intro y hy
  rw [List.mem_map] at hy
  obtain ⟨x, _, rfl⟩ := hy
  apply mul_nonneg heta
  apply np_interp_nonneg
  intro z hz
  rw [List.mem_map] at hz
  obtain ⟨w, hw, rfl⟩ := hz
  apply mul_nonneg (by norm_num)
  unfold fftconvolve_same at hw
  rw [List.mem_map] at hw
  obtain ⟨i, _, rfl⟩ := hw
  apply full_conv_nonneg
  · intro u hu
    rw [List.mem_map] at hu
    obtain ⟨v, _, rfl⟩ := hu
    exact np_interp_nonneg v V POW hpow
  · intro u hu
    rw [List.mem_map] at hu
    obtain ⟨v, _, rfl⟩ := hu
    exact kernel_nonneg dv s v

/-! ### Claim theorems -/

/-- C1: for every turbine config with a non-empty, strictly ascending
velocity sequence `V` and an equal-length power sequence `POW`, and any
smoothing parameters `eta`, `delta_v`, `sigma > 0`, `windturbine_smooth`
computes its output by resampling `POW` by clamped linear interpolation
onto the regular 1001-point grid spanning [-50, 50] at 0.1 spacing,
evaluating the Gaussian kernel on that grid, applying a length-preserving
('same') linear convolution of the two scaled by 0.1, interpolating the
result onto the 72-point grid spanning [0, 35] and multiplying point-wise
by `eta`; the returned config carries those 72 velocities, that power
sequence, and a rated power equal to the maximum of the new powers. -/
theorem windturbine_smooth_follows_spec (t : TurbineConfig) (eta dv s : ℝ)
    (hne : t.V ≠ []) (hasc : t.V.Chain' (· < ·))
    (hlen : t.V.length = t.POW.length) (hs : 0 < s) :
    (windturbine_smooth t ⟨some eta, some dv, some s⟩).1.1 = smooth_spec t eta dv s := by
  unfold windturbine_smooth smooth_spec
  simp only [Option.getD_some]
  rw [power_spec_eq, out_grid_spec_eq]

/-- Witness for C1 at the concrete curve `V = [0, 25]`, `POW = [0, 800]`
with the default parameter values. -/
theorem windturbine_smooth_follows_spec_witness :
    ((⟨[0, 25], [0, 800], 100, 800⟩ : TurbineConfig).V ≠ [] ∧
      (⟨[0, 25], [0, 800], 100, 800⟩ : TurbineConfig).V.Chain' (· < ·) ∧
      (⟨[0, 25], [0, 800], 100, 800⟩ : TurbineConfig).V.length =
        (⟨[0, 25], [0, 800], 100, 800⟩ : TurbineConfig).POW.length ∧
      (0 : ℝ) < 2.29) ∧
    (windturbine_smooth ⟨[0, 25], [0, 800], 100, 800⟩
        ⟨some 0.95, some 1.27, some 2.29⟩).1.1 =
      smooth_spec ⟨[0, 25], [0, 800], 100, 800⟩ 0.95 1.27 2.29 := by
  refine ⟨⟨by simp, by norm_num, by simp, by norm_num⟩, ?_⟩
  exact windturbine_smooth_follows_spec _ _ _ _ (by simp) (by norm_num) (by simp)
    (by norm_num)

/-- C3: for every turbine config as built by `get_windturbineconfig`
(which stores `P = np.max(POW)`), `windturbine_rated_capacity_per_unit`
returns the exact maximum of the config's power sequence: a value that is
an element of `POW` and bounds every element of `POW` from above. -/
theorem windturbine_rated_capacity_is_max (V POW : List ℝ) (hub : ℝ)
    (t : TurbineConfig) (h : get_windturbineconfig_model V POW hub = some t) :
    windturbine_rated_capacity_per_unit t ∈ POW ∧
      ∀ x ∈ POW, x ≤ windturbine_rated_capacity_per_unit t := by
  unfold get_windturbineconfig_model at h
  cases hm : npMax POW with
  | none => rw [hm] at h; simp at h
  | some m =>
    rw [hm] at h
    simp only [Option.map_some', Option.some.injEq] at h
    subst h
    exact npMax_spec POW m hm

/-- Witness for C3 at the concrete curve `POW = [0, 800, 300]`. -/
theorem windturbine_rated_capacity_is_max_witness :
    windturbine_rated_capacity_per_unit ⟨[0, 10, 20], [0, 800, 300], 100, 800⟩ ∈
        [(0 : ℝ), 800, 300] ∧
      ∀ x ∈ [(0 : ℝ), 800, 300], x ≤
        windturbine_rated_capacity_per_unit ⟨[0, 10, 20], [0, 800, 300], 100, 800⟩ := by
  refine windturbine_rated_capacity_is_max [0, 10, 20] [0, 800, 300] 100 _ ?_
  unfold get_windturbineconfig_model npMax
  norm_num [max_def]

/-- C5 counterexample: on a config whose power curve is empty,
`windturbine_rated_capacity_per_unit` does not fail at all — it returns
the stored `P` field (here `0`) without any emptiness check, so no
`EmptyCurveError` (which does not exist in the code) is raised. -/
theorem windturbine_rated_capacity_empty_counterexample :
    windturbine_rated_capacity_per_unit ⟨[], [], 100, 0⟩ = 0 := rfl

/-- C5 amended: `windturbine_rated_capacity_per_unit` performs no
emptiness check and simply returns the stored `P` field for every config,
also when `POW` is empty; an empty power curve instead makes the
*construction* `get_windturbineconfig` fail, inside `np.max` (a numpy
`ValueError`, not an `EmptyCurveError`). -/
theorem windturbine_rated_capacity_empty_amended :
    (∀ t : TurbineConfig, windturbine_rated_capacity_per_unit t = t.P) ∧
      ∀ (V : List ℝ) (hub : ℝ), get_windturbineconfig_model V [] hub = none :=
  ⟨fun _ => rfl, fun _ _ => rfl⟩

/-- C2 counterexample: for the panel `{"model": "unknown",
"efficiency": 1}` the function does not raise anything — it falls off the
end of the dispatch and returns Python `None` (`Except.ok none`), not an
`UnsupportedModelError` (which does not exist in the code). -/
theorem solarpanel_unknown_model_counterexample :
    solarpanel_rated_capacity_per_unit ⟨some "unknown", some 1, none, none, none⟩ =
      Except.ok none := by
  unfold solarpanel_rated_capacity_per_unit
  simp

/-- C2 amended: for a panel whose model tag is present and is neither
`'huld'` nor `'bofinger'`, `solarpanel_rated_capacity_per_unit` silently
returns `None` (no error of any kind); when the model tag is missing it
silently substitutes the default `'huld'` and evaluates the huld branch
(returning the efficiency, or raising `KeyError` if that field is
absent). -/
theorem solarpanel_model_dispatch (p : PanelDict) :
    (∀ m, p.model = some m → m ≠ "huld" → m ≠ "bofinger" →
      solarpanel_rated_capacity_per_unit p = Except.ok none) ∧
    (p.model = none →
      solarpanel_rated_capacity_per_unit p =
        match p.efficiency with
        | some e => Except.ok (some e)
        | none => Except.error "KeyError") := by
  constructor
  · intro m hm hh hb
    unfold solarpanel_rated_capacity_per_unit
    rw [hm]
    simp [Option.getD_some, hh, hb]
  · intro hm
    unfold solarpanel_rated_capacity_per_unit
    rw [hm]
    simp

/-- Witness for the amended C2: an unrecognized tag returns `None`, a
missing tag is treated as `'huld'`. -/
theorem solarpanel_model_dispatch_witness :
    solarpanel_rated_capacity_per_unit ⟨some "other", some 1, none, none, none⟩ =
        Except.ok none ∧
      solarpanel_rated_capacity_per_unit ⟨none, some 1, none, none, none⟩ =
        Except.ok (some 1) :=
  ⟨(solarpanel_model_dispatch _).1 "other" rfl (by decide) (by decide),
    (solarpanel_model_dispatch _).2 rfl⟩

/-- C9: for every panel config with model tag `'bofinger'` and
coefficients `A`, `B`, `C`, `solarpanel_rated_capacity_per_unit` returns
`(A + 1000·B + ln(1000)·C) · 1000`; in particular with `A = 0`,
`B = 0.0005`, `C = 0.0001` it returns `500 + 0.1·ln(1000)`. -/
theorem solarpanel_bofinger_formula (a b c : ℝ) :
    solarpanel_rated_capacity_per_unit ⟨some "bofinger", none, some a, some b, some c⟩ =
        Except.ok (some ((a + 1000 * b + Real.log 1000 * c) * 1000)) ∧
      solarpanel_rated_capacity_per_unit
          ⟨some "bofinger", none, some 0, some 0.0005, some 0.0001⟩ =
        Except.ok (some (500 + 0.1 * Real.log 1000)) := by
  constructor
  · unfold solarpanel_rated_capacity_per_unit
    simp only [Option.getD_some]
    norm_num
    rw [if_neg (by decide)]
    simp only [Except.ok.injEq, Option.some.injEq]
    ring
  · unfold solarpanel_rated_capacity_per_unit
    simp only [Option.getD_some]
    norm_num
    rw [if_neg (by decide)]
    simp only [Except.ok.injEq, Option.some.injEq]
    ring

/-- C4 counterexample: calling `windturbine_smooth` with a caller-supplied
empty `params` dictionary does change it — the three `setdefault` calls
insert the default values in place, so after the call the dictionary is no
longer empty. -/
theorem windturbine_smooth_params_mutated_counterexample :
    (windturbine_smooth ⟨[0, 25], [0, 800], 100, 800⟩ ⟨none, none, none⟩).2 ≠
      ⟨none, none, none⟩ := by
  unfold windturbine_smooth ParamsDict.setdefaults
  simp

/-- C4 amended: `windturbine_smooth` mutates the caller's `params`
dictionary via `setdefault`, inserting default values for every missing
key (and the shared `params={}` default object is likewise filled in on
the first call that relies on it); only a dictionary that already carries
all three keys `eta`, `Delta_v`, `sigma` is left unchanged by the call. -/
theorem windturbine_smooth_params_preserved (t : TurbineConfig) (p : ParamsDict)
    (he : p.eta.isSome) (hd : p.Delta_v.isSome) (hs : p.sigma.isSome) :
    (windturbine_smooth t p).2 = p := by
  unfold windturbine_smooth ParamsDict.setdefaults
  simp only []
  cases hpe : p.eta with
  | none => rw [hpe] at he; simp at he
  | some e =>
    cases hpd : p.Delta_v with
    | none => rw [hpd] at hd; simp at hd
    | some d =>
      cases hps : p.sigma with
      | none => rw [hps] at hs; simp at hs
      | some s =>
        cases p
        simp only at hpe hpd hps
        subst hpe; subst hpd; subst hps
        simp

/-- Witness for the amended C4: a fully populated dictionary comes back
unchanged. -/
theorem windturbine_smooth_params_preserved_witness :
    (windturbine_smooth ⟨[0, 25], [0, 800], 100, 800⟩
        ⟨some 0.9, some 1.3, some 2.3⟩).2 = ⟨some 0.9, some 1.3, some 2.3⟩ :=
  windturbine_smooth_params_preserved _ _ rfl rfl rfl

/-- C8: `windturbine_smooth` builds a new config (the source copies the
input dictionary before assigning into it, so the caller's config is not
mutated); the returned config replaces exactly the fields `V` (the
72-point grid), `POW` (the smoothed curve) and `P` (its maximum), while
`hub_height` — the only other field — is carried over unchanged from the
input. -/
theorem windturbine_smooth_frame (t : TurbineConfig) (p : ParamsDict) :
    ((windturbine_smooth t p).1.1).hub_height = t.hub_height ∧
      (windturbine_smooth t p).1.1 =
        { t with
            V := velocities_new
            POW := power_new t.V t.POW (p.eta.getD 0.95) (p.Delta_v.getD 1.27)
              (p.sigma.getD 2.29)
            P := (npMax (power_new t.V t.POW (p.eta.getD 0.95) (p.Delta_v.getD 1.27)
              (p.sigma.getD 2.29))).getD 0 } :=
  ⟨rfl, rfl⟩

/-- C10: `windturbine_smooth` is deterministic: two calls on element-wise
equal velocity and power sequences with equal effective parameter values
produce identical output velocities, powers and rated power; and the
second of two successive calls through the shared, mutated default
`params` object (modelled by feeding the post-call dictionary of a
defaulted call back in) returns exactly what the first call returned. -/
theorem windturbine_smooth_deterministic (t1 t2 : TurbineConfig)
    (p1 p2 : ParamsDict) (hV : t1.V = t2.V) (hP : t1.POW = t2.POW)
    (he : p1.eta.getD 0.95 = p2.eta.getD 0.95)
    (hd : p1.Delta_v.getD 1.27 = p2.Delta_v.getD 1.27)
    (hs : p1.sigma.getD 2.29 = p2.sigma.getD 2.29) :
    ((windturbine_smooth t1 p1).1.1.V = (windturbine_smooth t2 p2).1.1.V ∧
      (windturbine_smooth t1 p1).1.1.POW = (windturbine_smooth t2 p2).1.1.POW ∧
      (windturbine_smooth t1 p1).1.1.P = (windturbine_smooth t2 p2).1.1.P) ∧
    (windturbine_smooth t1 (windturbine_smooth t1 ⟨none, none, none⟩).2).1 =
      (windturbine_smooth t1 ⟨none, none, none⟩).1 := by
  constructor
  · unfold windturbine_smooth
    simp only []
    rw [hV, hP, he, hd, hs]
    simp
  · unfold windturbine_smooth ParamsDict.setdefaults
    simp

/-- Witness for C10: one call relying on the empty dictionary and one
with the defaults written out give identical curves. -/
theorem windturbine_smooth_deterministic_witness :
    ((windturbine_smooth ⟨[0, 25], [0, 800], 100, 800⟩ ⟨none, none, none⟩).1.1.V =
        (windturbine_smooth ⟨[0, 25], [0, 800], 100, 800⟩
          ⟨some 0.95, some 1.27, some 2.29⟩).1.1.V ∧
      (windturbine_smooth ⟨[0, 25], [0, 800], 100, 800⟩ ⟨none, none, none⟩).1.1.POW =
        (windturbine_smooth ⟨[0, 25], [0, 800], 100, 800⟩
          ⟨some 0.95, some 1.27, some 2.29⟩).1.1.POW ∧
      (windturbine_smooth ⟨[0, 25], [0, 800], 100, 800⟩ ⟨none, none, none⟩).1.1.P =
        (windturbine_smooth ⟨[0, 25], [0, 800], 100, 800⟩
          ⟨some 0.95, some 1.27, some 2.29⟩).1.1.P) ∧
    (windturbine_smooth ⟨[0, 25], [0, 800], 100, 800⟩
        (windturbine_smooth ⟨[0, 25], [0, 800], 100, 800⟩ ⟨none, none, none⟩).2).1 =
      (windturbine_smooth ⟨[0, 25], [0, 800], 100, 800⟩ ⟨none, none, none⟩).1 :=
  windturbine_smooth_deterministic _ _ _ _ rfl rfl rfl rfl rfl

/-- C6: for every valid turbine config (non-empty strictly ascending `V`,
equal-length `POW`) and smoothing parameters with effective
`eta ∈ (0, 1]`, if every input power value is ≥ 0 then every value of the
smoothed power sequence returned by `windturbine_smooth` is ≥ 0. -/
theorem windturbine_smooth_nonneg (t : TurbineConfig) (p : ParamsDict)
    (hne : t.V ≠ []) (hasc : t.V.Chain' (· < ·))
    (hlen : t.V.length = t.POW.length)
    (hpow : ∀ y ∈ t.POW, 0 ≤ y)
    (heta0 : 0 < p.eta.getD 0.95) (heta1 : p.eta.getD 0.95 ≤ 1) :
    ∀ y ∈ (windturbine_smooth t p).1.1.POW, 0 ≤ y := by
  intro y hy
  have hrw : (windturbine_smooth t p).1.1.POW =
      power_new t.V t.POW (p.eta.getD 0.95) (p.Delta_v.getD 1.27)
        (p.sigma.getD 2.29) := rfl
  rw [hrw] at hy
  exact power_new_nonneg t.V t.POW _ _ _ hpow (le_of_lt heta0) y hy

/-- Witness for C6 at `V = [0, 25]`, `POW = [0, 800]` with the default
parameters. -/
theorem windturbine_smooth_nonneg_witness :
    ((⟨[0, 25], [0, 800], 100, 800⟩ : TurbineConfig).V ≠ [] ∧
      (⟨[0, 25], [0, 800], 100, 800⟩ : TurbineConfig).V.Chain' (· < ·) ∧
      (∀ y ∈ (⟨[0, 25], [0, 800], 100, 800⟩ : TurbineConfig).POW, 0 ≤ y) ∧
      (0 : ℝ) < (none : Option ℝ).getD 0.95 ∧ ((none : Option ℝ)).getD 0.95 ≤ 1) ∧
    ∀ y ∈ (windturbine_smooth ⟨[0, 25], [0, 800], 100, 800⟩
        ⟨none, none, none⟩).1.1.POW, 0 ≤ y := by
  refine ⟨⟨by simp, by norm_num, ?_, by norm_num, by norm_num⟩, ?_⟩
  · intro y hy
    simp only [List.mem_cons, List.not_mem_nil, or_false] at hy
    rcases hy with rfl | rfl <;> norm_num
  · refine windturbine_smooth_nonneg _ _ (by simp) (by norm_num) (by simp) ?_
      (by norm_num) (by norm_num)
    intro y hy
    simp only [List.mem_cons, List.not_mem_nil, or_false] at hy
    rcases hy with rfl | rfl <;> norm_num

theorem np_interpO_some (x : ℝ) (xp fp : List ℝ) (hne : xp ≠ [])
    (hlen : xp.length = fp.length) :
    np_interpO x xp fp = some (np_interp x xp fp) := by
  unfold np_interpO
  rw [if_pos hlen, if_neg]
  simp [hne]

theorem mapOpt_some {α β : Type} (f : α → Option β) (g : α → β) :
    ∀ l : List α, (∀ a ∈ l, f a = some (g a)) → mapOpt f l = some (l.map g) := by
  intro l
  induction l with
  | nil => intro _; rfl
  | cons a as ih =>
    intro h
    rw [mapOpt, h a (by simp), ih (fun x hx => h x (by simp [hx]))]
    simp

theorem velocities_reg_length : velocities_reg.length = 1001 := by
  unfold velocities_reg linspace
  rw [List.length_map, List.length_range]

theorem velocities_new_length : velocities_new.length = 72 := by
  unfold velocities_new linspace
  rw [List.length_map, List.length_range]

theorem velocities_reg_ne_nil : velocities_reg ≠ [] := by
  intro h
  have := velocities_reg_length
  rw [h] at this
  simp at this

theorem velocities_new_ne_nil : velocities_new ≠ [] := by
  intro h
  have := velocities_new_length
  rw [h] at this
  simp at this

theorem fftconvolve_same_length (a b : List ℝ) :
    (fftconvolve_same a b).length = a.length := by
  simp [fftconvolve_same]

theorem npMax_isSome (l : List ℝ) (h : l ≠ []) : ∃ m, npMax l = some m := by
  cases l with
  | nil => exact absurd rfl h
  | cons a as => exact ⟨as.foldl max a, rfl⟩

/-- C7: `windturbine_smooth` is total on well-formed input: with a
non-empty, ascending `V` of the same length as `POW` and any parameters,
none of the fallible numpy operations raises — the guarded evaluation
`windturbine_smoothE` succeeds and returns exactly the value of
`windturbine_smooth`, whose config component is always delivered together
with the (non-fatal) oversmoothing flag. -/
theorem windturbine_smoothE_total (t : TurbineConfig) (p : ParamsDict)
    (hne : t.V ≠ []) (hasc : t.V.Chain' (· < ·))
    (hlen : t.V.length = t.POW.length) :
    windturbine_smoothE t p = some (windturbine_smooth t p) := by
  unfold windturbine_smoothE windturbine_smooth
  simp only []
  rw [mapOpt_some (fun x => np_interpO x t.V t.POW)
    (fun x => np_interp x t.V t.POW) velocities_reg
    (fun x _ => np_interpO_some x t.V t.POW hne hlen)]
  simp only []
  have hlen2 : velocities_reg.length =
      ((fftconvolve_same (velocities_reg.map (fun x => np_interp x t.V t.POW))
        (velocities_reg.map (kernel (p.Delta_v.getD 1.27) (p.sigma.getD 2.29)))).map
          (fun y => 0.1 * y)).length := by
    rw [List.length_map, fftconvolve_same_length, List.length_map]
  rw [mapOpt_some _ (fun x => np_interp x velocities_reg
      ((fftconvolve_same (velocities_reg.map (fun x => np_interp x t.V t.POW))
        (velocities_reg.map (kernel (p.Delta_v.getD 1.27) (p.sigma.getD 2.29)))).map
          (fun y => 0.1 * y))) velocities_new
    (fun x _ => np_interpO_some x velocities_reg _ velocities_reg_ne_nil hlen2)]
  simp only []
  have hmm : (velocities_new.map (fun x => np_interp x velocities_reg
      ((fftconvolve_same (velocities_reg.map (fun x => np_interp x t.V t.POW))
        (velocities_reg.map (kernel (p.Delta_v.getD 1.27) (p.sigma.getD 2.29)))).map
          (fun y => 0.1 * y)))).map (fun y => p.eta.getD 0.95 * y) =
      power_new t.V t.POW (p.eta.getD 0.95) (p.Delta_v.getD 1.27) (p.sigma.getD 2.29) := by
    unfold power_new
    simp only [List.map_map]
    rfl
  rw [hmm]
  obtain ⟨m, hm⟩ := npMax_isSome
    (power_new t.V t.POW (p.eta.getD 0.95) (p.Delta_v.getD 1.27) (p.sigma.getD 2.29))
    (by
      intro hnil
      have : (power_new t.V t.POW (p.eta.getD 0.95) (p.Delta_v.getD 1.27)
          (p.sigma.getD 2.29)).length = 72 := by
        unfold power_new
        simp only []
        rw [List.length_map, velocities_new_length]
      rw [hnil] at this
      simp at this)
  rw [hm]
  simp only [Option.getD_some]

/-- Witness for C7 at `V = [0, 25]`, `POW = [0, 800]` with the default
parameters. -/
theorem windturbine_smoothE_total_witness :
    ((⟨[0, 25], [0, 800], 100, 800⟩ : TurbineConfig).V ≠ [] ∧
      (⟨[0, 25], [0, 800], 100, 800⟩ : TurbineConfig).V.Chain' (· < ·) ∧
      (⟨[0, 25], [0, 800], 100, 800⟩ : TurbineConfig).V.length =
        (⟨[0, 25], [0, 800], 100, 800⟩ : TurbineConfig).POW.length) ∧
    windturbine_smoothE ⟨[0, 25], [0, 800], 100, 800⟩ ⟨none, none, none⟩ =
      some (windturbine_smooth ⟨[0, 25], [0, 800], 100, 800⟩ ⟨none, none, none⟩) :=
  ⟨⟨by simp, by norm_num, by simp⟩,
    windturbine_smoothE_total _ _ (by simp) (by norm_num) (by simp)⟩

end Atlite
